import Mathlib

set_option maxRecDepth 4000

/-!
Shallow embedding of the storage/metadata engine, sharing engine, anomaly
detector and log pagination of the cloud secure storage system
(backend/storage.py, backend/app.py, backend/ai_module.py).

Conventions of the embedding:
* Python dicts become association lists (String keyed), which preserve the
  insertion order that dict iteration exposes; dict assignment is
  update-in-place-or-append (setAssoc).
* ISO-8601 timestamp strings that the code parses with fromisoformat are
  modelled as already-parsed integers (seconds); the code runs on Python
  3.11+ (it uses datetime.UTC), where fromisoformat accepts the Z suffix
  the writers append, and naive timestamps are normalised to UTC before
  comparison, so timestamp handling reduces to integer comparison.
  A timestamp that fromisoformat rejects is modelled as Option.none.
* File bytes are List Nat; Fernet decryption and werkzeug
  check_password_hash are opaque collaborator services passed as functions.
-/

namespace CloudStore

/-- Metadata entry of files.json, written by encrypt_file_and_store in
storage.py: presence of deleted_at marks a soft-deleted (trashed) file. -/
structure FileRecord where
  owner : String
  original_name : String
  uploaded_at : Int
  folder : String
  size : Nat
  deleted_at : Option Int := none
deriving Repr, DecidableEq

/-- files.json: stored name to record, a Python dict. -/
abbrev Metadata := List (String × FileRecord)

/-- Encrypted blobs of local_store, keyed by stored name. -/
abbrev Blobs := List (String × List Nat)

/-- Opaque fernet.decrypt: fails (None) on tampered or wrong-key ciphertext. -/
abbrev Decrypt := List Nat → Option (List Nat)

/-- Python dict read d.get(k). -/
def lookup {α : Type} (m : List (String × α)) (k : String) : Option α :=
  (m.find? (fun p => p.1 == k)).map (fun p => p.2)

/-- Python dict write d[k] = v: replace in place or append. -/
def setAssoc {α : Type} (m : List (String × α)) (k : String) (v : α) : List (String × α) :=
  match m with
  | [] => [(k, v)]
  | (a, b) :: rest => if a == k then (k, v) :: rest else (a, b) :: setAssoc rest k v

/-- Search loop shared by delete_file, restore_file and
permanently_delete_file in storage.py: first record of the owner whose
stored name or original name equals the query. -/
def findOwnedMatch (meta : Metadata) (filename user : String) : Option String :=
  (meta.find? (fun p =>
    p.2.owner == user && (p.1 == filename || p.2.original_name == filename))).map
    (fun p => p.1)

/-- Set deleted_at on the record stored under target (meta[to_delete]["deleted_at"] = now). -/
def markDeleted (meta : Metadata) (target : String) (now : Int) : Metadata :=
  meta.map (fun p =>
    if p.1 == target then (p.1, { p.2 with deleted_at := some now }) else p)

/-- storage.delete_file: soft delete. The source sets deleted_at and returns
True whenever a matching owned record exists, whether or not the record
already carries deleted_at. -/
def delete_file (meta : Metadata) (filename user : String) (now : Int) :
    Bool × Metadata :=
  match findOwnedMatch meta filename user with
  | none => (false, meta)
  | some sn => (true, markDeleted meta sn now)

/-- Row shape returned by GET /api/files in app.py. -/
structure FileListing where
  filename : String
  original_name : String
  uploaded_at : Int
  folder : String
  size : Nat
deriving Repr, DecidableEq

/-- app.list_files: non-trashed records of the owner in the exact folder. -/
def list_files (meta : Metadata) (user folder_path : String) : List FileListing :=
  (meta.filter (fun p =>
    p.2.owner == user && p.2.folder == folder_path && p.2.deleted_at.isNone)).map
    (fun p => ⟨p.1, p.2.original_name, p.2.uploaded_at, p.2.folder, p.2.size⟩)

/-- storage.decrypt_and_get_file: resolve by owner plus original name, read
the blob, decrypt. The result pair stands for the temp file written to
TEMP_STORE under the original name, holding the plaintext. -/
def decrypt_and_get_file (meta : Metadata) (blobs : Blobs) (dec : Decrypt)
    (filename user : String) : Option (String × List Nat) :=
  match meta.find? (fun p =>
      p.2.original_name == filename && p.2.owner == user) with
  | none => none
  | some pr =>
    match lookup blobs pr.1 with
    | none => none
    | some enc =>
      match dec enc with
      | none => none
      | some pt => some (pr.2.original_name, pt)

/-- storage.decrypt_and_get_file_by_stored_name: direct stored-name lookup,
owner checked before any blob access. -/
def decrypt_and_get_file_by_stored_name (meta : Metadata) (blobs : Blobs)
    (dec : Decrypt) (stored user : String) : Option (String × List Nat) :=
  match lookup meta stored with
  | none => none
  | some d =>
    if d.owner != user then none
    else
      match lookup blobs stored with
      | none => none
      | some enc =>
        match dec enc with
        | none => none
        | some pt => some (d.original_name, pt)

/-- GET /api/download/(filename) in app.py: original-name resolution first,
stored-name fallback; None models the 404 not-found response. -/
def download_route (meta : Metadata) (blobs : Blobs) (dec : Decrypt)
    (user filename : String) : Option (String × List Nat) :=
  match decrypt_and_get_file meta blobs dec filename user with
  | some r => some r
  | none => decrypt_and_get_file_by_stored_name meta blobs dec filename user

/-- Share record persisted in shares.json by POST /api/share. -/
structure ShareRecord where
  owner : String
  original_name : String
  stored_name : String
  created_at : Int
  expires_at : Int
  password_hash : String
  recipients : List String
deriving Repr, DecidableEq

/-- shares.json: token to record. -/
abbrev Shares := List (String × ShareRecord)

/-- Opaque werkzeug check_password_hash(hash, password). -/
abbrev PasswordCheck := String → String → Bool

/-- Failure responses of POST /api/share/(token): 404 unknown token,
403 expired, 401 bad password, 404 blob file missing, 500 decrypt failed. -/
inductive ShareAccessError where
  | notFound
  | expired
  | unauthorized
  | fileMissing
  | decryptFailed
deriving Repr, DecidableEq

/-- app.access_shared_file (POST /api/share/(token)): token lookup, then
expiry, then password, then blob existence, then decryption. The supplied
password is stripped of surrounding whitespace before checking, as in the
source. -/
def access_shared_file (shares : Shares) (meta : Metadata) (blobs : Blobs)
    (dec : Decrypt) (checkpw : PasswordCheck) (token rawPassword : String)
    (now : Int) : Except ShareAccessError (String × List Nat) :=
  let input_password := rawPassword.trim
  match lookup shares token with
  | none => .error .notFound
  | some share =>
    if now > share.expires_at then .error .expired
    else if !(checkpw share.password_hash input_password) then .error .unauthorized
    else if (lookup blobs share.stored_name).isNone then .error .fileMissing
    else
      match decrypt_and_get_file_by_stored_name meta blobs dec
          share.stored_name share.owner with
      | none => .error .decryptFailed
      | some r => .ok r

/-- Expiry handling of POST /api/share in app.py, line
expiry_seconds = int(data.get("expiry_seconds") or 3600): a missing value
and the integer 0 are both falsy in Python, so both fall back to the 3600
default; every other integer, negative ones included, is used as supplied. -/
def effectiveExpirySeconds (supplied : Option Int) : Int :=
  match supplied with
  | none => 3600
  | some v => if v == 0 then 3600 else v

/-- app.share_file (POST /api/share), after request validation: resolve the
file by owner plus original name (find_meta_for_owner_and_name), fall back
to a stored-name match, build the ShareRecord with
expires_at = created_at + expiry, persist it under the fresh token.
None models the 404 response when the owner has no such file. The token,
the password hash and created_at come from outside the pure core
(uuid4, generate_password_hash, utcnow). -/
def share_file (shares : Shares) (meta : Metadata) (user filename : String)
    (recipients : List String) (supplied : Option Int)
    (token password_hash : String) (created_at : Int) :
    Option (Shares × ShareRecord) :=
  let expiry := effectiveExpirySeconds supplied
  let byOriginal := meta.find? (fun p =>
    p.2.owner == user && p.2.original_name == filename)
  let resolved :=
    match byOriginal with
    | some pr => some pr
    | none => meta.find? (fun p => p.2.owner == user && p.1 == filename)
  match resolved with
  | none => none
  | some pr =>
    let record : ShareRecord :=
      { owner := user
        original_name := filename
        stored_name := pr.1
        created_at := created_at
        expires_at := created_at + expiry
        password_hash := password_hash
        recipients := recipients }
    some (setAssoc shares token record, record)

/-- Folder object of folders.json after load_and_migrate_folders. -/
structure Folder where
  id : String
  name : String
  path : String
  parent : String
  owner : String
deriving Repr, DecidableEq

/-- folders.json: id (owner:path) to folder. -/
abbrev Folders := List (String × Folder)

/-- Failure responses of DELETE /api/folders/(id): 404 missing or foreign
folder, 400 folder has files, 400 folder has subfolders. -/
inductive DeleteFolderError where
  | notFound
  | hasFiles
  | hasSubfolders
deriving Repr, DecidableEq

/-- app.delete_folder (DELETE /api/folders/(id)). The has-files guard of
the source tests owner and folder path only: it does not exclude records
that carry deleted_at, so trashed files block deletion too. -/
def delete_folder (folders : Folders) (meta : Metadata)
    (user folder_id : String) : Except DeleteFolderError Folders :=
  match lookup folders folder_id with
  | none => .error .notFound
  | some fo =>
    if fo.owner != user then .error .notFound
    else
      let folder_path := fo.path
      if meta.any (fun p => p.2.owner == user && p.2.folder == folder_path) then
        .error .hasFiles
      else if folders.any (fun p =>
          p.2.owner == user && p.2.parent == folder_path) then
        .error .hasSubfolders
      else
        .ok (folders.filter (fun p => p.1 != folder_id))

/-- Entry of activity_log.json written by ai_module.record_activity.
The timestamp field is the parsed value of the stored ISO string, none
standing for a string that datetime.fromisoformat rejects (such entries
are skipped by the analyzer via its except-continue). -/
structure ActivityEntry where
  user : String
  action : String
  file : String
  timestamp : Option Int
deriving Repr, DecidableEq

/-- Per-user action counters (a Python dict of dicts, flattened one level). -/
abbrev ActionCounts := List (String × Int)

/-- stats value of analyze_recent_logs: user to action counters. -/
abbrev Stats := List (String × ActionCounts)

/-- Python d.get(action, 0). -/
def getCount (ac : ActionCounts) (action : String) : Int :=
  (lookup ac action).getD 0

/-- Python stats.get(user, empty dict). -/
def statsFor (st : Stats) (user : String) : ActionCounts :=
  (lookup st user).getD []

/-- stats.setdefault(user, empty); stats[user][action] = get + count. -/
def bumpStats (st : Stats) (user action : String) (count : Int) : Stats :=
  setAssoc st user
    (setAssoc (statsFor st user) action (getCount (statsFor st user) action + count))

/-- First token of Python str.split() (split on whitespace runs, empties
discarded): none models the IndexError on an all-whitespace string. -/
def firstToken (l : List Char) : Option (List Char) :=
  if (l.dropWhile Char.isWhitespace).isEmpty then none
  else some ((l.dropWhile Char.isWhitespace).takeWhile (fun c => !c.isWhitespace))

/-- Whether pat occurs as a contiguous run inside l (Python substring test). -/
def startsWithChars : List Char → List Char → Bool
  | _, [] => true
  | [], _ :: _ => false
  | c :: cs, p :: ps => c == p && startsWithChars cs ps

/-- Python (pat in s) on character lists. -/
def hasSub (pat : List Char) : List Char → Bool
  | [] => pat.isEmpty
  | c :: cs => startsWithChars (c :: cs) pat || hasSub pat cs

/-- Decimal value of a digit run. -/
def digitsVal (l : List Char) : Nat :=
  l.foldl (fun a c => 10 * a + (c.toNat - 48)) 0

/-- All characters are decimal digits. -/
def allDigits (l : List Char) : Bool :=
  l.all Char.isDigit

/-- Digits-only body of Python int(). -/
def pyIntOfDigits (l : List Char) : Option Nat :=
  if l.isEmpty then none
  else if allDigits l then some (digitsVal l) else none

/-- Python int() applied to a whitespace-free token: optional sign, then
decimal digits, ValueError otherwise modelled as none. (Python also accepts
single underscores between digits; no string this system writes contains
one, so they are left out.) -/
def pyInt (l : List Char) : Option Int :=
  match l with
  | [] => none
  | c :: rest =>
    if c == '+' then (pyIntOfDigits rest).map Int.ofNat
    else if c == '-' then (pyIntOfDigits rest).map (fun n => -(n : Int))
    else (pyIntOfDigits (c :: rest)).map Int.ofNat

/-- The literal pattern tested by (" files" in filename). -/
def filesPat : List Char := [' ', 'f', 'i', 'l', 'e', 's']

/-- Count extraction of analyze_recent_logs for bulk entries: 1 by default;
when " files" occurs in the file field, int(filename.split()[0]), with
ValueError and IndexError both falling back to 1. -/
def bulkCount (file : String) : Int :=
  if hasSub filesPat file.data then
    match firstToken file.data with
    | none => 1
    | some t =>
      match pyInt t with
      | none => 1
      | some n => n
  else 1

/-- Bulk normalisation of analyze_recent_logs: bulk_upload and
bulk_download are remapped to upload and download carrying their embedded
count; every other action counts 1 under its own name. -/
def normalizeAction (action : String) (file : String) : String × Int :=
  if action == "bulk_upload" then ("upload", bulkCount file)
  else if action == "bulk_download" then ("download", bulkCount file)
  else (action, 1)

/-- Loop body of analyze_recent_logs: skip unparseable timestamps, skip
entries strictly before the cutoff (there is no upper bound against now),
skip other users when a filter is given, then aggregate. -/
def analyzeStep (uf : Option String) (cutoff : Int) (st : Stats)
    (e : ActivityEntry) : Stats :=
  match e.timestamp with
  | none => st
  | some ts =>
    if ts < cutoff then st
    else if (match uf with | some u => e.user != u | none => false) then st
    else
      let ac := normalizeAction e.action e.file
      bumpStats st e.user ac.1 ac.2

/-- Deletion alert text of ai_module.analyze_recent_logs. -/
def deletionAlert (n : Int) : String :=
  "Unusual number of deletions detected (" ++ toString n ++ " deletions)."

/-- Failed-login alert text of ai_module.analyze_recent_logs. -/
def failedLoginAlert (n : Int) : String :=
  "Multiple failed login attempts detected (" ++ toString n ++ " attempts)."

/-- ai_module.analyze_recent_logs: aggregate the window, then evaluate the
two alert rules in priority order for the filtered user; the alert string
is empty when neither rule fires. With no user filter the source reads
stats.get(None), which is absent for the String-keyed entries modelled
here, so the alert rules see empty counters. -/
def analyze_recent_logs (logs : List ActivityEntry) (uf : Option String)
    (hours : Int) (now : Int) : Stats × String :=
  let cutoff := now - hours * 3600
  let stats := logs.foldl (analyzeStep uf cutoff) []
  let user_stats := match uf with | some u => statsFor stats u | none => []
  let alert :=
    if getCount user_stats "delete" > 2 then
      deletionAlert (getCount user_stats "delete")
    else if getCount user_stats "failed_login" ≥ 3 then
      failedLoginAlert (getCount user_stats "failed_login")
    else ""
  (stats, alert)

/-- Entry shape consumed by the GET /api/logs pagination tail (the merged,
user-filtered, query-filtered list). Timestamps stay strings because the
sort key of the source is the raw timestamp string. -/
structure LogEntry where
  user : String
  action : String
  file : String
  timestamp : String
deriving Repr, DecidableEq

/-- Sort order of GET /api/logs: timestamp descending. -/
def tsGE (a b : LogEntry) : Prop := b.timestamp ≤ a.timestamp

instance : DecidableRel tsGE := fun a b =>
  inferInstanceAs (Decidable (b.timestamp ≤ a.timestamp))

instance : IsTotal LogEntry tsGE :=
  ⟨fun a b => (le_total b.timestamp a.timestamp).elim Or.inl Or.inr⟩

instance : IsTrans LogEntry tsGE :=
  ⟨fun _ _ _ h1 h2 => le_trans h2 h1⟩

/-- Python user_logs.sort(key=timestamp, reverse=True): a stable descending
sort, modelled by insertion sort with the at-least order (equal keys keep
their original relative order, as CPython guarantees). -/
def sortByTsDesc (l : List LogEntry) : List LogEntry :=
  l.insertionSort tsGE

/-- Response payload of GET /api/logs. -/
structure LogsPage where
  logs : List LogEntry
  total : Nat
  limit : Int
  offset : Int
  has_more : Bool
deriving Repr, DecidableEq

/-- Pagination tail of app.get_logs: limit defaults to 50 and is RESET to
50 whenever it falls outside 1..1000 (the source does not clamp to the
nearer bound); offset defaults to 0 and negative offsets become 0; the
page is user_logs[offset : offset + limit] of the sorted list, and
has_more is offset + limit < total. -/
def get_logs_page (entries : List LogEntry) (limitArg offsetArg : Option Int) :
    LogsPage :=
  let limit0 := limitArg.getD 50
  let offset0 := offsetArg.getD 0
  let limit := if limit0 < 1 || limit0 > 1000 then 50 else limit0
  let offset := if offset0 < 0 then 0 else offset0
  let sorted := sortByTsDesc entries
  let total := sorted.length
  let page := (sorted.drop offset.toNat).take limit.toNat
  { logs := page
    total := total
    limit := limit
    offset := offset
    has_more := decide (offset + limit < (total : Int)) }

/-! Theorems. -/

/-- Key of an owned-match search is the first entry satisfying the shared
search predicate; its presence is what delete_file reports. -/
lemma delete_file_fst (meta : Metadata) (filename user : String) (now : Int) :
    (delete_file meta filename user now).1 =
      (findOwnedMatch meta filename user).isSome := by
  cases h : findOwnedMatch meta filename user <;> simp [delete_file, h]

/-- C1 counterexample: a record that already carries deleted_at (trashed)
is matched again by delete_file, which re-sets the timestamp and returns
true, where the claim mandates false for an already-trashed record. -/
def metaC1 : Metadata :=
  [("bob_at_x.com_notes.txt",
    { owner := "bob@x.com", original_name := "notes.txt", uploaded_at := 100,
      folder := "/", size := 4, deleted_at := some 200 })]

/-- C1, counterexample: the single record of metaC1 is already trashed
(deleted_at present), yet delete_file returns true instead of the false the
claim requires for the already-trashed case. -/
theorem delete_file_true_on_trashed :
    metaC1.all (fun p => p.2.deleted_at.isSome) = true ∧
    (delete_file metaC1 "notes.txt" "bob@x.com" 300).1 = true := by
  exact ⟨rfl, rfl⟩

/-- C1, amended: delete_file returns true exactly when some record owned by
the caller matches the name (stored or original), regardless of whether that
record is already trashed; false only when no such record exists at all. -/
theorem delete_file_true_iff_match (meta : Metadata) (filename user : String)
    (now : Int) :
    (delete_file meta filename user now).1 =
      meta.any (fun p =>
        p.2.owner == user && (p.1 == filename || p.2.original_name == filename)) := by
  rw [delete_file_fst]
  unfold findOwnedMatch
  rw [show ∀ (o : Option (String × FileRecord)),
      (o.map (fun p => p.1)).isSome = o.isSome from fun o => by cases o <;> rfl]
  induction meta with
  | nil => rfl
  | cons p rest ih =>
    by_cases h : (p.2.owner == user &&
        (p.1 == filename || p.2.original_name == filename)) = true
    · have hf : List.find? (fun q =>
          q.2.owner == user && (q.1 == filename || q.2.original_name == filename))
          (p :: rest) = some p := List.find?_cons_of_pos rest h
      rw [hf, List.any_cons, h]
      rfl
    · have hf : List.find? (fun q =>
          q.2.owner == user && (q.1 == filename || q.2.original_name == filename))
          (p :: rest) = List.find? (fun q =>
          q.2.owner == user && (q.1 == filename || q.2.original_name == filename))
          rest := List.find?_cons_of_neg rest h
      rw [hf, List.any_cons, ih, Bool.eq_false_iff.mpr h]
      rfl

/-- Metadata used for the C5 counterexample. -/
def metaC5 : Metadata :=
  [("alice_at_x.com_doc.pdf",
    { owner := "alice@x.com", original_name := "doc.pdf", uploaded_at := 10,
      folder := "/", size := 3, deleted_at := none })]

/-- C5, counterexample: a caller-supplied expiry of -5 seconds is truthy in
Python, so it is used as is and the persisted ShareLink has
expires_at = created_at - 5 < created_at, violating the claimed invariant. -/
theorem share_negative_ttl_expires_before_creation :
    (share_file [] metaC5 "alice@x.com" "doc.pdf" ["bob@y.com"] (some (-5))
        "tok1" "hash1" 1000).map (fun r => (r.2.created_at, r.2.expires_at)) =
      some (1000, 995) ∧ (995 : Int) < 1000 := by
  exact ⟨rfl, by decide⟩

/-- Effective expiry is positive whenever the supplied value is not
negative (0 and a missing value fall back to the 3600 default). -/
lemma effectiveExpiry_pos (supplied : Option Int)
    (h : ∀ v, supplied = some v → 0 ≤ v) :
    0 < effectiveExpirySeconds supplied := by
  cases supplied with
  | none => norm_num [effectiveExpirySeconds]
  | some v =>
    have hv := h v rfl
    by_cases h0 : v = 0
    · simp [effectiveExpirySeconds, h0]
    · simp only [effectiveExpirySeconds, beq_iff_eq, if_neg h0]
      omega

/-- C5, amended: every ShareLink persisted by share_file has
expires_at strictly greater than created_at provided the caller-supplied
expiry value is not negative; zero and a missing value both fall back to
the 3600-second default, but a negative supplied value is used as is and
breaks the invariant. -/
theorem share_expires_after_creation (shares : Shares) (meta : Metadata)
    (user filename : String) (recipients : List String) (supplied : Option Int)
    (token hash : String) (created : Int) (out : Shares × ShareRecord)
    (hres : share_file shares meta user filename recipients supplied token
      hash created = some out)
    (hsup : ∀ v, supplied = some v → 0 ≤ v) :
    out.2.created_at < out.2.expires_at := by
  have hpos := effectiveExpiry_pos supplied hsup
  unfold share_file at hres
  cases hA : meta.find? (fun p =>
      p.2.owner == user && p.2.original_name == filename) with
  | some pr =>
    rw [hA] at hres
    simp only [Option.some.injEq] at hres
    subst hres
    simpa using hpos
  | none =>
    rw [hA] at hres
    cases hB : meta.find? (fun p => p.2.owner == user && p.1 == filename) with
    | none => rw [hB] at hres; simp at hres
    | some pr =>
      rw [hB] at hres
      simp only [Option.some.injEq] at hres
      subst hres
      simpa using hpos

/-- C5, witness. -/
theorem share_expires_after_creation_witness :
    (share_file [] metaC5 "alice@x.com" "doc.pdf" ["bob@y.com"] (some 0)
        "tok1" "hash1" 1000).map (fun r => r.2.created_at < r.2.expires_at) =
      some True := by
  cases hres : share_file [] metaC5 "alice@x.com" "doc.pdf" ["bob@y.com"]
      (some 0) "tok1" "hash1" 1000 with
  | none => exact absurd hres (by decide)
  | some out =>
    have := share_expires_after_creation [] metaC5 "alice@x.com" "doc.pdf"
      ["bob@y.com"] (some 0) "tok1" "hash1" 1000 out hres
      (by intro v hv; cases hv; decide)
    simp [hres, this]

/-- Folder used by the C3 theorems. -/
def folderC3 : Folder :=
  { id := "carol@x.com:/docs", name := "docs", path := "/docs", parent := "/",
    owner := "carol@x.com" }

/-- Folder table used by the C3 theorems. -/
def foldersC3 : Folders := [("carol@x.com:/docs", folderC3)]

/-- Metadata for the C3 counterexample: one soft-deleted record in /docs. -/
def metaC3 : Metadata :=
  [("carol_at_x.com_a.txt",
    { owner := "carol@x.com", original_name := "a.txt", uploaded_at := 1,
      folder := "/docs", size := 1, deleted_at := some 50 })]

/-- C3, counterexample: the only record referencing /docs is soft-deleted
(deleted_at set), so by the claim deletion must proceed; the source has no
trash filter in its has-files guard and fails with the non-empty error. -/
theorem delete_folder_blocked_by_trashed :
    metaC3.all (fun p => p.2.deleted_at.isSome) = true ∧
    delete_folder foldersC3 metaC3 "carol@x.com" "carol@x.com:/docs" =
      .error .hasFiles := by
  exact ⟨rfl, rfl⟩

/-- C3, amended: delete_folder fails with the non-empty-folder error exactly
when some FileRecord of the owner, trashed or not, sits in the folder path;
the subfolder error fires exactly when no such file exists but a folder of
the owner has the path as parent; with neither, the folder entry is
removed. Soft-deleted records block deletion just like active ones. -/
theorem delete_folder_characterization (folders : Folders) (meta : Metadata)
    (user fid : String) (fo : Folder)
    (hlook : lookup folders fid = some fo) (howner : fo.owner = user) :
    (delete_folder folders meta user fid = .error .hasFiles ↔
      meta.any (fun p => p.2.owner == user && p.2.folder == fo.path) = true) ∧
    (delete_folder folders meta user fid = .error .hasSubfolders ↔
      meta.any (fun p => p.2.owner == user && p.2.folder == fo.path) = false ∧
      folders.any (fun p => p.2.owner == user && p.2.parent == fo.path) = true) ∧
    (meta.any (fun p => p.2.owner == user && p.2.folder == fo.path) = false →
      folders.any (fun p => p.2.owner == user && p.2.parent == fo.path) = false →
      delete_folder folders meta user fid =
        .ok (folders.filter (fun p => p.1 != fid))) := by
  have hown : (fo.owner != user) = false := by simp [howner]
  by_cases h1 : meta.any (fun p => p.2.owner == user && p.2.folder == fo.path) = true
  · refine ⟨?_, ?_, ?_⟩ <;> simp [delete_folder, hlook, hown, h1]
  · have h1f : meta.any (fun p => p.2.owner == user && p.2.folder == fo.path) = false :=
      Bool.eq_false_iff.mpr h1
    by_cases h2 : folders.any
        (fun p => p.2.owner == user && p.2.parent == fo.path) = true
    · refine ⟨?_, ?_, ?_⟩ <;> simp [delete_folder, hlook, hown, h1f, h2]
    · have h2f : folders.any
          (fun p => p.2.owner == user && p.2.parent == fo.path) = false :=
        Bool.eq_false_iff.mpr h2
      refine ⟨?_, ?_, ?_⟩ <;> simp [delete_folder, hlook, hown, h1f, h2f]

/-- C3, witness: with no files at all the folder entry is removed. -/
theorem delete_folder_characterization_witness :
    delete_folder foldersC3 [] "carol@x.com" "carol@x.com:/docs" =
      .ok (foldersC3.filter (fun p => p.1 != "carol@x.com:/docs")) :=
  (delete_folder_characterization foldersC3 [] "carol@x.com"
    "carol@x.com:/docs" folderC3 rfl rfl).2.2 rfl rfl

/-- C2: redemption failures are decided in a fixed order with independent
branches: an unknown token is NotFound; a known token past expiry is
Expired for every supplied password, correct ones included; Unauthorized
arises exactly for a known, unexpired token whose stripped password fails
the hash check. -/
theorem share_redemption_error_order (shares : Shares) (meta : Metadata)
    (blobs : Blobs) (dec : Decrypt) (checkpw : PasswordCheck)
    (token pw : String) (now : Int) :
    (access_shared_file shares meta blobs dec checkpw token pw now =
        .error .notFound ↔ lookup shares token = none) ∧
    (access_shared_file shares meta blobs dec checkpw token pw now =
        .error .expired ↔
      ∃ s, lookup shares token = some s ∧ s.expires_at < now) ∧
    (access_shared_file shares meta blobs dec checkpw token pw now =
        .error .unauthorized ↔
      ∃ s, lookup shares token = some s ∧ now ≤ s.expires_at ∧
        checkpw s.password_hash pw.trim = false) := by
  cases h : lookup shares token with
  | none =>
    have hres : access_shared_file shares meta blobs dec checkpw token pw now =
        .error .notFound := by
      unfold access_shared_file
      rw [h]
    rw [hres]
    simp [h]
  | some s =>
    by_cases he : s.expires_at < now
    · have hres : access_shared_file shares meta blobs dec checkpw token pw now =
          .error .expired := by
        unfold access_shared_file
        rw [h]
        simp [he]
      rw [hres]
      exact ⟨by simp [h], by simp [h, he], by simp [h, not_le.mpr he]⟩
    · by_cases hp : checkpw s.password_hash pw.trim = true
      · by_cases hb : (lookup blobs s.stored_name).isNone
        · have hres : access_shared_file shares meta blobs dec checkpw token pw
              now = .error .fileMissing := by
            unfold access_shared_file
            rw [h]
            simp [he, hp, hb]
          rw [hres]
          exact ⟨by simp [h], by simp [h, he], by simp [h, hp]⟩
        · cases hdec : decrypt_and_get_file_by_stored_name meta blobs dec
              s.stored_name s.owner with
          | none =>
            have hres : access_shared_file shares meta blobs dec checkpw token
                pw now = .error .decryptFailed := by
              unfold access_shared_file
              rw [h]
              simp [he, hp, hb, hdec]
            rw [hres]
            exact ⟨by simp [h], by simp [h, he], by simp [h, hp]⟩
          | some r =>
            have hres : access_shared_file shares meta blobs dec checkpw token
                pw now = .ok r := by
              unfold access_shared_file
              rw [h]
              simp [he, hp, hb, hdec]
            rw [hres]
            exact ⟨by simp [h], by simp [h, he], by simp [h, hp]⟩
      · have hpf : checkpw s.password_hash pw.trim = false :=
          Bool.eq_false_iff.mpr hp
        have hres : access_shared_file shares meta blobs dec checkpw token pw
            now = .error .unauthorized := by
          unfold access_shared_file
          rw [h]
          simp [he, hpf]
        rw [hres]
        exact ⟨by simp [h], by simp [h, he], by simp [h, not_lt.mp he, hpf]⟩

/-- Log entry used by the C6 counterexample. -/
def logC6a : LogEntry :=
  ⟨"u@x.com", "upload", "a.txt", "2025-01-02T00:00:00Z"⟩

/-- Second log entry used by the C6 counterexample. -/
def logC6b : LogEntry :=
  ⟨"u@x.com", "upload", "b.txt", "2025-01-01T00:00:00Z"⟩

/-- C6, counterexample: a requested limit of 0 lies below the valid range,
and by the claim behaves as 1 (one entry returned); the source instead
resets it to the 50 default, echoes limit = 50, and returns both entries. -/
theorem get_logs_limit_zero_not_clamped :
    (get_logs_page [logC6a, logC6b] (some 0) (some 0)).logs.length = 2 ∧
    (get_logs_page [logC6a, logC6b] (some 0) (some 0)).limit = 50 := by
  have h1 : tsGE logC6a logC6b := by
    show logC6b.timestamp ≤ logC6a.timestamp
    rw [String.le_iff_toList_le]
    decide
  have hsort : sortByTsDesc [logC6a, logC6b] = [logC6a, logC6b] := by
    unfold sortByTsDesc
    simp only [List.insertionSort, List.orderedInsert]
    rw [if_pos h1]
  constructor
  · show (((sortByTsDesc [logC6a, logC6b]).drop (0 : Int).toNat).take
      (50 : Int).toNat).length = 2
    rw [hsort]
    rfl
  · rfl

/-- C6, amended: the log query pagination sorts entries by timestamp
descending and slices [offset, offset+limit); limit defaults to 50 but any
requested limit outside 1..1000 (above 1000 or below 1 alike) is RESET to
the 50 default rather than clamped to the nearer bound; offset below 0
behaves as 0; the response carries the pre-pagination total and
has_more = offset + limit < total. -/
theorem get_logs_page_spec (entries : List LogEntry)
    (limitArg offsetArg : Option Int) :
    let lim := if limitArg.getD 50 < 1 || limitArg.getD 50 > 1000 then 50
               else limitArg.getD 50
    let off := if offsetArg.getD 0 < 0 then 0 else offsetArg.getD 0
    (get_logs_page entries limitArg offsetArg).total = entries.length ∧
    (get_logs_page entries limitArg offsetArg).limit = lim ∧
    (get_logs_page entries limitArg offsetArg).offset = off ∧
    (get_logs_page entries limitArg offsetArg).logs =
      ((sortByTsDesc entries).drop off.toNat).take lim.toNat ∧
    (get_logs_page entries limitArg offsetArg).logs.Pairwise tsGE ∧
    ((get_logs_page entries limitArg offsetArg).has_more = true ↔
      off + lim < (entries.length : Int)) := by
  intro lim off
  refine ⟨?_, rfl, rfl, rfl, ?_, ?_⟩
  · show (sortByTsDesc entries).length = entries.length
    exact List.length_insertionSort tsGE entries
  · have hs : List.Sorted tsGE (List.insertionSort tsGE entries) :=
      List.sorted_insertionSort tsGE entries
    have hsub : List.Sublist
        (((sortByTsDesc entries).drop off.toNat).take lim.toNat)
        (sortByTsDesc entries) :=
      (List.take_sublist _ _).trans (List.drop_sublist _ _)
    exact List.Pairwise.sublist hsub hs
  · show decide (off + lim < ((sortByTsDesc entries).length : Int)) = true ↔ _
    rw [show (sortByTsDesc entries).length = entries.length from
      List.length_insertionSort tsGE entries]
    exact decide_eq_true_iff

/-- The alert string of analyze_recent_logs is the two-rule priority chain
over the filtered user's counters (definitional unfolding). -/
lemma analyze_alert_eq (logs : List ActivityEntry) (u : String)
    (hours now : Int) :
    (analyze_recent_logs logs (some u) hours now).2 =
      (if getCount (statsFor (analyze_recent_logs logs (some u) hours now).1 u)
          "delete" > 2 then
        deletionAlert (getCount
          (statsFor (analyze_recent_logs logs (some u) hours now).1 u) "delete")
      else if getCount
          (statsFor (analyze_recent_logs logs (some u) hours now).1 u)
          "failed_login" ≥ 3 then
        failedLoginAlert (getCount
          (statsFor (analyze_recent_logs logs (some u) hours now).1 u)
          "failed_login")
      else "") := rfl

/-- Count of one action for the filtered user in the window, as read by the
alert rules of analyze_recent_logs. -/
def userStatOf (logs : List ActivityEntry) (u : String) (hours now : Int)
    (action : String) : Int :=
  getCount (statsFor (analyze_recent_logs logs (some u) hours now).1 u) action

/-- C7: with a filtered user, the deletion rule (count > 2) always wins,
returning the deletion message citing the exact count even when the
failed-login count is at least 3 at the same time; the failed-login message
appears only when the deletion rule does not fire; otherwise the alert is
the empty string, so at most one message per call. -/
theorem alert_priority (logs : List ActivityEntry) (u : String)
    (hours now : Int) :
    (2 < userStatOf logs u hours now "delete" →
      (analyze_recent_logs logs (some u) hours now).2 =
        deletionAlert (userStatOf logs u hours now "delete")) ∧
    (userStatOf logs u hours now "delete" ≤ 2 →
      3 ≤ userStatOf logs u hours now "failed_login" →
      (analyze_recent_logs logs (some u) hours now).2 =
        failedLoginAlert (userStatOf logs u hours now "failed_login")) ∧
    (userStatOf logs u hours now "delete" ≤ 2 →
      userStatOf logs u hours now "failed_login" < 3 →
      (analyze_recent_logs logs (some u) hours now).2 = "") := by
  refine ⟨fun h1 => ?_, fun h1 h2 => ?_, fun h1 h2 => ?_⟩
  · simp only [userStatOf] at h1 ⊢
    rw [analyze_alert_eq logs u hours now, if_pos h1]
  · simp only [userStatOf] at h1 h2 ⊢
    rw [analyze_alert_eq logs u hours now, if_neg (by omega), if_pos h2]
  · simp only [userStatOf] at h1 h2 ⊢
    rw [analyze_alert_eq logs u hours now, if_neg (by omega),
      if_neg (by omega)]

/-- Activity log used by the C7 witness: three deletions and three failed
logins for the same user inside the window. -/
def logsC7 : List ActivityEntry :=
  [⟨"u@x.com", "delete", "a.txt", some 10⟩,
   ⟨"u@x.com", "delete", "b.txt", some 20⟩,
   ⟨"u@x.com", "delete", "c.txt", some 30⟩,
   ⟨"u@x.com", "failed_login", "", some 40⟩,
   ⟨"u@x.com", "failed_login", "", some 50⟩,
   ⟨"u@x.com", "failed_login", "", some 60⟩]

/-- C7, witness: both rules are enabled (3 deletions, 3 failed logins) and
the deletion message wins. -/
theorem alert_priority_witness :
    userStatOf logsC7 "u@x.com" 24 100 "delete" = 3 ∧
    userStatOf logsC7 "u@x.com" 24 100 "failed_login" = 3 ∧
    (analyze_recent_logs logsC7 (some "u@x.com") 24 100).2 = deletionAlert 3 :=
  ⟨by decide, by decide,
    (alert_priority logsC7 "u@x.com" 24 100).1 (by decide)⟩

/-- Membership test actually applied by the aggregation loop of
analyze_recent_logs: a parseable timestamp at or after the cutoff and a
user matching the filter; there is no test against the upper end. -/
def keptByAnalyze (cutoff : Int) (uf : Option String) (e : ActivityEntry) :
    Bool :=
  match e.timestamp with
  | none => false
  | some ts =>
    decide (cutoff ≤ ts) &&
      (match uf with | some u => e.user == u | none => true)

/-- One loop step either aggregates a kept entry or leaves stats alone. -/
lemma analyzeStep_eq (uf : Option String) (cutoff : Int) (st : Stats)
    (e : ActivityEntry) :
    analyzeStep uf cutoff st e =
      if keptByAnalyze cutoff uf e then
        bumpStats st e.user (normalizeAction e.action e.file).1
          (normalizeAction e.action e.file).2
      else st := by
  obtain ⟨eu, ea, ef, ets⟩ := e
  cases ets with
  | none => rfl
  | some ts =>
    cases uf with
    | none =>
      show (if ts < cutoff then st
            else bumpStats st eu (normalizeAction ea ef).1
              (normalizeAction ea ef).2) =
          if (decide (cutoff ≤ ts) && true) = true then
            bumpStats st eu (normalizeAction ea ef).1 (normalizeAction ea ef).2
          else st
      by_cases h1 : cutoff ≤ ts
      · rw [if_neg (by omega), if_pos (by simp [h1])]
      · rw [if_pos (by omega), if_neg (by simp [h1])]
    | some u =>
      show (if ts < cutoff then st
            else if (eu != u) = true then st
            else bumpStats st eu (normalizeAction ea ef).1
              (normalizeAction ea ef).2) =
          if (decide (cutoff ≤ ts) && (eu == u)) = true then
            bumpStats st eu (normalizeAction ea ef).1 (normalizeAction ea ef).2
          else st
      by_cases h1 : cutoff ≤ ts
      · by_cases h2 : (eu == u) = true
        · rw [if_neg (by omega), if_neg (by simp [bne, h2]),
            if_pos (by simp [h1, h2])]
        · have h2f : (eu == u) = false := Bool.eq_false_iff.mpr h2
          rw [if_neg (by omega), if_pos (by simp [bne, h2f]),
            if_neg (by simp [h2f])]
      · rw [if_pos (by omega), if_neg (by simp [h1])]

/-- C4, amended: analyze_recent_logs aggregates exactly the entries whose
parseable timestamp lies at or after now - windowHours (strictly earlier
entries are excluded, the lower bound itself included) and whose user
passes the filter; there is no upper bound, so entries with timestamps
after now are aggregated as well. -/
theorem analyze_aggregates_filtered (logs : List ActivityEntry)
    (uf : Option String) (hours now : Int) :
    (analyze_recent_logs logs uf hours now).1 =
      (logs.filter (keptByAnalyze (now - hours * 3600) uf)).foldl
        (fun st e =>
          bumpStats st e.user (normalizeAction e.action e.file).1
            (normalizeAction e.action e.file).2) [] := by
  show logs.foldl (analyzeStep uf (now - hours * 3600)) [] = _
  generalize ([] : Stats) = st
  induction logs generalizing st with
  | nil => rfl
  | cons e rest ih =>
    by_cases hk : keptByAnalyze (now - hours * 3600) uf e = true
    · rw [List.foldl_cons, List.filter_cons_of_pos hk, List.foldl_cons,
        analyzeStep_eq, if_pos hk]
      exact ih _
    · rw [List.foldl_cons, List.filter_cons_of_neg (by simpa using hk),
        analyzeStep_eq, if_neg (by simpa using hk)]
      exact ih _

/-- Entry used by the C4 counterexample: timestamp 3600, one hour after the
reference instant now = 0. -/
def futureEntry : ActivityEntry := ⟨"u@x.com", "upload", "f.txt", some 3600⟩

/-- C4, counterexample: with now = 0 and a 24-hour window, an entry whose
timestamp lies strictly after now is aggregated by analyze_recent_logs,
although the claim says entries with timestamps after now are excluded. -/
theorem analyze_includes_future_entries :
    futureEntry.timestamp = some 3600 ∧ (0 : Int) < 3600 ∧
    (analyze_recent_logs [futureEntry] (some "u@x.com") 24 0).1 =
      [("u@x.com", [("upload", 1)])] := by
  refine ⟨rfl, by decide, by decide⟩

/-- A decimal digit is not whitespace. -/
lemma digit_not_ws (c : Char) (h : c.isDigit = true) : c.isWhitespace = false := by
  by_contra hw
  rw [Bool.not_eq_false] at hw
  have hd : c = ' ' ∨ c = '\t' ∨ c = '\r' ∨ c = '\n' := by
    simpa [Char.isWhitespace, or_assoc] using hw
  rcases hd with rfl | rfl | rfl | rfl <;> exact absurd h (by decide)

/-- A pattern list is matched at the start of itself followed by anything. -/
lemma startsWithChars_append (pat rest : List Char) :
    startsWithChars (pat ++ rest) pat = true := by
  induction pat with
  | nil => cases rest <;> rfl
  | cons p ps ih => simp [startsWithChars, ih]

/-- The Python substring test accepts a pattern that ends the string. -/
lemma hasSub_append (s pat : List Char) : hasSub pat (s ++ pat) = true := by
  induction s with
  | nil =>
    cases hp : pat with
    | nil => rfl
    | cons p ps =>
      show hasSub (p :: ps) (p :: ps) = true
      have := startsWithChars_append (p :: ps) []
      rw [List.append_nil] at this
      simp [hasSub, this]
  | cons c cs ih => simp [hasSub, ih]

/-- Taking non-whitespace characters off a digit run followed by the
" files" pattern returns exactly the digit run. -/
lemma takeWhile_digits_append (s : List Char) (h : allDigits s = true) :
    (s ++ filesPat).takeWhile (fun c => !c.isWhitespace) = s := by
  induction s with
  | nil => rfl
  | cons c cs ih =>
    rw [allDigits, List.all_cons, Bool.and_eq_true] at h
    have hw : c.isWhitespace = false := digit_not_ws c h.1
    rw [List.cons_append, List.takeWhile_cons, if_pos (by simp [hw]),
      ih h.2]

/-- The first whitespace-delimited token of a digit run followed by
" files" is the digit run itself. -/
lemma firstToken_digits_append (s : List Char) (hne : s ≠ [])
    (h : allDigits s = true) :
    firstToken (s ++ filesPat) = some s := by
  cases s with
  | nil => cases hne rfl
  | cons c cs =>
    have hd : c.isDigit = true := by
      rw [allDigits, List.all_cons, Bool.and_eq_true] at h
      exact h.1
    have hw : c.isWhitespace = false := digit_not_ws c hd
    have hdw : (c :: (cs ++ filesPat)).dropWhile Char.isWhitespace =
        c :: (cs ++ filesPat) :=
      List.dropWhile_cons_of_neg (by simp [hw])
    unfold firstToken
    rw [List.cons_append, hdw, if_neg (by simp), ← List.cons_append,
      takeWhile_digits_append _ h]

/-- Python int() on a pure digit run returns its decimal value. -/
lemma pyInt_digits (s : List Char) (hne : s ≠ []) (h : allDigits s = true) :
    pyInt s = some ((digitsVal s : Nat) : Int) := by
  cases s with
  | nil => cases hne rfl
  | cons c cs =>
    have hd : c.isDigit = true := by
      rw [allDigits, List.all_cons, Bool.and_eq_true] at h
      exact h.1
    have hplus : (c == '+') = false := by
      by_contra hx
      rw [Bool.not_eq_false] at hx
      have hc : c = '+' := by simpa using hx
      subst hc
      exact absurd hd (by decide)
    have hminus : (c == '-') = false := by
      by_contra hx
      rw [Bool.not_eq_false] at hx
      have hc : c = '-' := by simpa using hx
      subst hc
      exact absurd hd (by decide)
    simp only [pyInt]
    rw [if_neg (by simp [hplus]), if_neg (by simp [hminus])]
    unfold pyIntOfDigits
    rw [if_neg (by simp), if_pos h]
    rfl

/-- The extracted bulk count of a file field of the form digits ++ " files"
is the decimal value of the digit run. -/
lemma bulkCount_digits (s : List Char) (hne : s ≠ [])
    (h : allDigits s = true) :
    bulkCount (String.mk (s ++ filesPat)) = ((digitsVal s : Nat) : Int) := by
  unfold bulkCount
  rw [show (String.mk (s ++ filesPat)).data = s ++ filesPat from rfl]
  rw [hasSub_append s filesPat]
  rw [if_pos rfl]
  rw [firstToken_digits_append s hne h]
  show (match pyInt s with | none => (1 : Int) | some n => n) =
    ((digitsVal s : Nat) : Int)
  rw [pyInt_digits s hne h]

/-- C8: a bulk_upload (bulk_download) entry whose file field has the form
digits ++ " files" contributes exactly the decimal value of the digits to
the upload (download) bucket, and a bulk entry whose file field yields no
parseable leading integer contributes exactly 1. -/
theorem bulk_count_parsing (s : List Char) (hne : s ≠ [])
    (hdig : allDigits s = true) :
    normalizeAction "bulk_upload" (String.mk (s ++ filesPat)) =
      ("upload", ((digitsVal s : Nat) : Int)) ∧
    normalizeAction "bulk_download" (String.mk (s ++ filesPat)) =
      ("download", ((digitsVal s : Nat) : Int)) ∧
    (∀ f : String, (∀ t, firstToken f.data = some t → pyInt t = none) →
      normalizeAction "bulk_upload" f = ("upload", 1) ∧
      normalizeAction "bulk_download" f = ("download", 1)) := by
  refine ⟨?_, ?_, ?_⟩
  · show ("upload", bulkCount (String.mk (s ++ filesPat))) = _
    rw [bulkCount_digits s hne hdig]
  · show ("download", bulkCount (String.mk (s ++ filesPat))) = _
    rw [bulkCount_digits s hne hdig]
  · intro f hf
    have hb : bulkCount f = 1 := by
      unfold bulkCount
      by_cases hs : hasSub filesPat f.data = true
      · rw [if_pos hs]
        cases ht : firstToken f.data with
        | none => rfl
        | some t =>
          show (match pyInt t with | none => (1 : Int) | some n => n) = (1 : Int)
          rw [hf t ht]
      · rw [if_neg hs]
    constructor
    · show ("upload", bulkCount f) = _
      rw [hb]
    · show ("download", bulkCount f) = _
      rw [hb]

/-- C8, witness: the file field "5 files" contributes exactly 5, and a
file field with no leading integer contributes 1. -/
theorem bulk_count_parsing_witness :
    normalizeAction "bulk_upload" (String.mk (['5'] ++ filesPat)) =
      ("upload", (5 : Int)) ∧
    normalizeAction "bulk_download" "report files" = ("download", 1) := by
  constructor
  · exact (bulk_count_parsing ['5'] (by decide) (by decide)).1
  · exact ((bulk_count_parsing ['5'] (by decide) (by decide)).2.2
      "report files" (by decide)).2

/-- Entries of a dict-like association list with duplicate-free keys are
determined by their key. -/
lemma keyUnique {α : Type} (m : List (String × α))
    (h : (m.map Prod.fst).Nodup) (p q : String × α)
    (hp : p ∈ m) (hq : q ∈ m) (hk : p.1 = q.1) : p = q := by
  induction m with
  | nil => cases hp
  | cons a rest ih =>
    rw [List.map_cons, List.nodup_cons] at h
    rcases List.mem_cons.mp hp with rfl | hp2
    · rcases List.mem_cons.mp hq with rfl | hq2
      · rfl
      · exact absurd (hk ▸ List.mem_map_of_mem Prod.fst hq2) h.1
    · rcases List.mem_cons.mp hq with rfl | hq2
      · exact absurd (hk ▸ List.mem_map_of_mem Prod.fst hp2) h.1
      · exact ih h.2 hp2 hq2

/-- A successful dict lookup exhibits the key-value pair as an entry. -/
lemma lookup_eq_some {α : Type} {m : List (String × α)} {k : String} {v : α}
    (h : lookup m k = some v) : (k, v) ∈ m := by
  unfold lookup at h
  cases hf : m.find? (fun p => p.1 == k) with
  | none => rw [hf] at h; cases h
  | some q =>
    rw [hf] at h
    simp only [Option.map_some', Option.some.injEq] at h
    have hk : q.1 = k := by simpa using List.find?_some hf
    have hmem := List.mem_of_find?_eq_some hf
    rw [← h, ← hk]
    exact hmem

/-- C9: listing for owner A surfaces only records owned by A; a download by
A (original-name resolution or stored-name fallback) succeeds only when the
resolved record is owned by A; and delete by A leaves every entry owned by
the distinct user B in place untouched. -/
theorem ownership_isolation (meta : Metadata) (blobs : Blobs) (dec : Decrypt)
    (A B folderPath fn delName : String) (now : Int)
    (hAB : A ≠ B) (hnd : (meta.map Prod.fst).Nodup) :
    (∀ e ∈ list_files meta A folderPath,
      ∃ d, (e.filename, d) ∈ meta ∧ d.owner = A) ∧
    (∀ out, download_route meta blobs dec A fn = some out →
      ∃ sn d, (sn, d) ∈ meta ∧ d.owner = A ∧ out.1 = d.original_name) ∧
    (∀ p ∈ meta, p.2.owner = B → p ∈ (delete_file meta delName A now).2) := by
  refine ⟨?_, ?_, ?_⟩
  · intro e he
    unfold list_files at he
    obtain ⟨p, hpmem, hpe⟩ := List.mem_map.mp he
    have hpred := (List.mem_filter.mp hpmem).2
    rw [Bool.and_eq_true, Bool.and_eq_true] at hpred
    refine ⟨p.2, ?_, by simpa using hpred.1.1⟩
    have : e.filename = p.1 := by rw [← hpe]
    rw [this]
    exact (List.mem_filter.mp hpmem).1
  · intro out hout
    unfold download_route at hout
    cases h1 : decrypt_and_get_file meta blobs dec fn A with
    | some r =>
      rw [h1] at hout
      cases hout
      unfold decrypt_and_get_file at h1
      cases hf : meta.find? (fun p =>
          p.2.original_name == fn && p.2.owner == A) with
      | none => rw [hf] at h1; cases h1
      | some pr =>
        rw [hf] at h1
        have h1r : (match lookup blobs pr.1 with
            | none => (none : Option (String × List Nat))
            | some enc =>
              match dec enc with
              | none => none
              | some pt => some (pr.2.original_name, pt)) = some out := h1
        have hmem := List.mem_of_find?_eq_some hf
        have hpred := List.find?_some hf
        rw [Bool.and_eq_true] at hpred
        refine ⟨pr.1, pr.2, hmem, by simpa using hpred.2, ?_⟩
        cases hb : lookup blobs pr.1 with
        | none => rw [hb] at h1r; cases h1r
        | some enc =>
          rw [hb] at h1r
          have h1s : (match dec enc with
              | none => (none : Option (String × List Nat))
              | some pt => some (pr.2.original_name, pt)) = some out := h1r
          cases hd : dec enc with
          | none => rw [hd] at h1s; cases h1s
          | some pt =>
            rw [hd] at h1s
            cases h1s
            rfl
    | none =>
      rw [h1] at hout
      unfold decrypt_and_get_file_by_stored_name at hout
      cases hl : lookup meta fn with
      | none => rw [hl] at hout; cases hout
      | some d =>
        rw [hl] at hout
        have hout2 : (if (d.owner != A) = true then none
            else match lookup blobs fn with
              | none => (none : Option (String × List Nat))
              | some enc =>
                match dec enc with
                | none => none
                | some pt => some (d.original_name, pt)) = some out := hout
        by_cases how : (d.owner != A) = true
        · rw [if_pos how] at hout2; cases hout2
        · rw [if_neg how] at hout2
          have hdA : d.owner = A := by
            simpa using Bool.eq_false_iff.mpr how
          refine ⟨fn, d, lookup_eq_some hl, hdA, ?_⟩
          cases hb : lookup blobs fn with
          | none => rw [hb] at hout2; cases hout2
          | some enc =>
            rw [hb] at hout2
            have hout3 : (match dec enc with
                | none => (none : Option (String × List Nat))
                | some pt => some (d.original_name, pt)) = some out := hout2
            cases hd : dec enc with
            | none => rw [hd] at hout3; cases hout3
            | some pt =>
              rw [hd] at hout3
              cases hout3
              rfl
  · intro p hp hpB
    unfold delete_file
    cases hfm : findOwnedMatch meta delName A with
    | none => exact hp
    | some sn =>
      unfold findOwnedMatch at hfm
      cases hf : meta.find? (fun q =>
          q.2.owner == A && (q.1 == delName || q.2.original_name == delName)) with
      | none => rw [hf] at hfm; cases hfm
      | some q =>
        rw [hf] at hfm
        simp only [Option.map_some', Option.some.injEq] at hfm
        subst hfm
        have hqmem := List.mem_of_find?_eq_some hf
        have hqpred := List.find?_some hf
        rw [Bool.and_eq_true] at hqpred
        have hqA : q.2.owner = A := by simpa using hqpred.1
        have hpq : p.1 ≠ q.1 := by
          intro hk
          have : p = q := keyUnique meta hnd p q hp hqmem hk
          rw [this, hqA] at hpB
          exact hAB hpB
        show p ∈ markDeleted meta q.1 now
        unfold markDeleted
        have hfix : (fun r : String × FileRecord =>
            if r.1 == q.1 then (r.1, { r.2 with deleted_at := some now })
            else r) p = p := by
          show (if (p.1 == q.1) = true then
              (p.1, { p.2 with deleted_at := some now }) else p) = p
          rw [if_neg (by simpa using hpq)]
        rw [← hfix]
        exact List.mem_map_of_mem _ hp

/-- Metadata used by the C9 witness: one record each for two users. -/
def metaC9 : Metadata :=
  [("alice_at_x.com_a.txt",
    { owner := "alice@x.com", original_name := "a.txt", uploaded_at := 1,
      folder := "/", size := 3, deleted_at := none }),
   ("bob_at_x.com_b.txt",
    { owner := "bob@x.com", original_name := "b.txt", uploaded_at := 2,
      folder := "/", size := 3, deleted_at := none })]

/-- C9, witness: the isolation theorem instantiated with alice acting on
metadata that also holds a record of bob, alice guessing bob's names. -/
theorem ownership_isolation_witness :
    (∀ e ∈ list_files metaC9 "alice@x.com" "/",
      ∃ d, (e.filename, d) ∈ metaC9 ∧ d.owner = "alice@x.com") ∧
    (∀ out, download_route metaC9 [] (fun l => some l) "alice@x.com"
        "bob_at_x.com_b.txt" = some out →
      ∃ sn d, (sn, d) ∈ metaC9 ∧ d.owner = "alice@x.com" ∧
        out.1 = d.original_name) ∧
    (∀ p ∈ metaC9, p.2.owner = "bob@x.com" →
      p ∈ (delete_file metaC9 "b.txt" "alice@x.com" 99).2) :=
  ownership_isolation metaC9 [] (fun l => some l) "alice@x.com" "bob@x.com"
    "/" "bob_at_x.com_b.txt" "b.txt" 99 (by decide) (by decide)

/-- Marking one stored name deleted changes no field that the original-name
resolver reads, so decryption by owner and original name is unaffected. -/
lemma decrypt_markDeleted (meta : Metadata) (blobs : Blobs) (dec : Decrypt)
    (filename user sn : String) (t : Int) :
    decrypt_and_get_file (markDeleted meta sn t) blobs dec filename user =
      decrypt_and_get_file meta blobs dec filename user := by
  unfold decrypt_and_get_file markDeleted
  rw [List.find?_map]
  have hcomp : ((fun p : String × FileRecord =>
      p.2.original_name == filename && p.2.owner == user) ∘
      (fun p : String × FileRecord =>
        if p.1 == sn then (p.1, { p.2 with deleted_at := some t }) else p)) =
      (fun p : String × FileRecord =>
        p.2.original_name == filename && p.2.owner == user) := by
    funext p
    show (fun q : String × FileRecord =>
        q.2.original_name == filename && q.2.owner == user)
      (if p.1 == sn then (p.1, { p.2 with deleted_at := some t }) else p) = _
    by_cases h : p.1 == sn
    · rw [if_pos h]
    · rw [if_neg h]
  rw [hcomp]
  cases hf : meta.find? (fun p =>
      p.2.original_name == filename && p.2.owner == user) with
  | none => rfl
  | some pr =>
    simp only [Option.map_some']
    by_cases h : (pr.1 == sn) = true
    · rw [if_pos h]
    · rw [if_neg h]

/-- Marking one stored name deleted changes no field that the stored-name
resolver reads either. -/
lemma decrypt_stored_markDeleted (meta : Metadata) (blobs : Blobs)
    (dec : Decrypt) (stored user sn : String) (t : Int) :
    decrypt_and_get_file_by_stored_name (markDeleted meta sn t) blobs dec
      stored user =
      decrypt_and_get_file_by_stored_name meta blobs dec stored user := by
  unfold decrypt_and_get_file_by_stored_name lookup markDeleted
  rw [List.find?_map]
  have hcomp : ((fun p : String × FileRecord => p.1 == stored) ∘
      (fun p : String × FileRecord =>
        if p.1 == sn then (p.1, { p.2 with deleted_at := some t }) else p)) =
      (fun p : String × FileRecord => p.1 == stored) := by
    funext p
    show (fun q : String × FileRecord => q.1 == stored)
      (if p.1 == sn then (p.1, { p.2 with deleted_at := some t }) else p) = _
    by_cases h : p.1 == sn
    · rw [if_pos h]
    · rw [if_neg h]
  rw [hcomp]
  cases hf : meta.find? (fun p => p.1 == stored) with
  | none => rfl
  | some pr =>
    simp only [Option.map_some']
    by_cases h : (pr.1 == sn) = true
    · rw [if_pos h]
    · rw [if_neg h]

/-- C10: soft deletion does not restrict download. Setting deleted_at on
any stored name leaves the entire download operation (original-name
resolution with stored-name fallback, owner checks, decryption output)
bit-for-bit identical: deleted_at is never consulted on the download path. -/
theorem soft_delete_keeps_download (meta : Metadata) (blobs : Blobs)
    (dec : Decrypt) (user filename sn : String) (t : Int) :
    download_route (markDeleted meta sn t) blobs dec user filename =
      download_route meta blobs dec user filename := by
  unfold download_route
  rw [decrypt_markDeleted meta blobs dec filename user sn t,
    decrypt_stored_markDeleted meta blobs dec filename user sn t]

end CloudStore
